import Mathlib

/-!
# Verification of the batch collection pipeline of `stock_data_collector.py`

Shallow embedding of `StockDataCollector` from
`src/research/data_collection/stock_data_collector.py`.

Modelling decisions:
* Ticker symbols are abstract identifiers; only equality and ordering on
  them are used by the collector, so they are modelled as naturals.
* The upstream market-data library (`yfinance`) is an oracle
  (`MarketOracle`): per bulk call it may raise (`bulkRaises`), and it
  reports for which requested tickers it returns a non-empty frame
  (`bulkHasData`); per-ticker fundamentals fetches report whether a
  non-empty mapping comes back (`fundamentalsOk`; an exception inside
  `download_fundamentals` is caught there and yields the empty mapping,
  i.e. `false`).
* The file system is part of the state: the lists of per-ticker
  historical artifacts and fundamentals artifacts written, the sequence
  of progress records persisted to the progress file, and the summaries
  written, in write order.  Wall-clock fields (timestamps, the derived
  date range) are left out of the records, since nothing in the
  collector's control flow depends on them.
* `time.sleep` between batches has no observable effect on the state and
  is dropped.
-/

/-- Ticker symbols, abstracted to an identifier type with decidable
equality and a linear order (the collector only ever compares and sorts
them). -/
abbrev Ticker := Nat

/-- The record persisted by `save_progress` / read by `load_progress`
(the wall-clock `timestamp` field is omitted). -/
structure ProgressRecord where
  successful_tickers : List Ticker
  failed_tickers : List Ticker
  last_batch_index : Nat
deriving DecidableEq

/-- The final record written to `collection_summary.json` (wall-clock
date fields omitted). -/
structure CollectionSummary where
  total_tickers : Nat
  successful : Nat
  failed : Nat
  successful_tickers : List Ticker
  failed_tickers : List Ticker
deriving DecidableEq

/-- Behaviour of the upstream market-data collaborator: whether the bulk
download call of a given batch index raises, for which tickers that call
returns a non-empty frame, and whether the per-ticker fundamentals fetch
returns a non-empty mapping. -/
structure MarketOracle where
  bulkRaises : Nat → Bool
  bulkHasData : Nat → Ticker → Bool
  fundamentalsOk : Ticker → Bool

/-- The collector's mutable state plus the externally visible file
artifacts: in-memory `self.successful_tickers` / `self.failed_tickers`,
the per-ticker artifacts written, the progress records persisted (in
order), and the summaries written (in order). -/
structure CollectorState where
  successful_tickers : List Ticker
  failed_tickers : List Ticker
  savedHistorical : List Ticker
  savedFundamentals : List Ticker
  savedProgress : List ProgressRecord
  savedSummaries : List CollectionSummary
deriving DecidableEq

/-- State of a freshly constructed `StockDataCollector` with an empty
data directory (`__init__` sets both ticker lists empty). -/
def initState : CollectorState := ⟨[], [], [], [], [], []⟩

/-- `download_batch_historical`: on an exception in the bulk call it
returns the empty mapping; otherwise the result maps exactly those
requested tickers for which the upstream returned non-empty data.  The
model keeps the key set of the returned dictionary, in request order. -/
def download_batch_historical (O : MarketOracle) (batchIdx : Nat)
    (tickers : List Ticker) : List Ticker :=
  if O.bulkRaises batchIdx then []
  else tickers.filter (fun t => O.bulkHasData batchIdx t)

/-- `download_fundamentals`: all exceptions are caught inside and yield
the empty mapping.  The model records only whether the returned mapping
is non-empty (truthy), which is all `collect_all_data` tests. -/
def download_fundamentals (O : MarketOracle) (ticker : Ticker) : Bool :=
  O.fundamentalsOk ticker

/-- `load_progress`: returns the persisted record when the progress file
exists, else empty sets and last-batch-index 0. -/
def load_progress (progressFile : Option ProgressRecord) : ProgressRecord :=
  match progressFile with
  | some p => p
  | none => ⟨[], [], 0⟩

/-- `save_progress`: appends (persists) one progress record built from
the current in-memory lists and the given batch index. -/
def save_progress (s : CollectorState) (batch_index : Nat) : CollectorState :=
  { s with savedProgress :=
      s.savedProgress ++ [⟨s.successful_tickers, s.failed_tickers, batch_index⟩] }

/-- The per-ticker body of the batch loop of `collect_all_data`: if the
bulk result contains the ticker, write its historical artifact, fetch
fundamentals and write them when non-empty, and append the ticker to the
successful list; otherwise append it to the failed list. -/
def processTicker (historical : List Ticker) (fundOk : Ticker → Bool)
    (s : CollectorState) (ticker : Ticker) : CollectorState :=
  if ticker ∈ historical then
    let s1 := { s with savedHistorical := s.savedHistorical ++ [ticker] }
    let s2 :=
      if fundOk ticker then
        { s1 with savedFundamentals := s1.savedFundamentals ++ [ticker] }
      else s1
    { s2 with successful_tickers := s2.successful_tickers ++ [ticker] }
  else
    { s with failed_tickers := s.failed_tickers ++ [ticker] }

/-- The slice `tickers[batch_start:batch_end]` with
`batch_start = batch_idx * batch_size` and
`batch_end = min(batch_start + batch_size, len(tickers))`. -/
def batchTickers (tks : List Ticker) (bs i : Nat) : List Ticker :=
  let batch_start := i * bs
  let batch_end := min (batch_start + bs) tks.length
  (tks.drop batch_start).take (batch_end - batch_start)

/-- One iteration of the batch loop of `collect_all_data`: bulk-download
the batch, process each of its tickers, then persist progress with
`batch_idx + 1`. -/
def processBatch (O : MarketOracle) (tks : List Ticker) (bs : Nat)
    (s : CollectorState) (i : Nat) : CollectorState :=
  let bt := batchTickers tks bs i
  let historical := download_batch_historical O i bt
  save_progress (bt.foldl (processTicker historical (download_fundamentals O)) s) (i + 1)

/-- The batch loop of `collect_all_data`, run over an explicit list of
batch indices. -/
def runBatches (O : MarketOracle) (tks : List Ticker) (bs : Nat)
    (idxs : List Nat) (s : CollectorState) : CollectorState :=
  idxs.foldl (processBatch O tks bs) s

/-- The working ticker list of `collect_all_data`: when resuming, every
ticker already in the loaded record's successful or failed list is
filtered out; otherwise the input list unchanged. -/
def workingTickers (pf : Option ProgressRecord) (tickers : List Ticker)
    (resume : Bool) : List Ticker :=
  if resume then
    let progress := load_progress pf
    tickers.filter (fun t =>
      decide (¬ t ∈ progress.successful_tickers ++ progress.failed_tickers))
  else tickers

/-- `start_batch` of `collect_all_data`: the loaded record's
last-batch-index when resuming, else 0. -/
def startBatch (pf : Option ProgressRecord) (resume : Bool) : Nat :=
  if resume then (load_progress pf).last_batch_index else 0

/-- The collector state right before the batch loop: when resuming, the
in-memory lists are replaced by the loaded record's lists. -/
def loadedState (pf : Option ProgressRecord) (resume : Bool) : CollectorState :=
  if resume then
    { initState with
      successful_tickers := (load_progress pf).successful_tickers,
      failed_tickers := (load_progress pf).failed_tickers }
  else initState

/-- `total_batches = (len(tickers) + batch_size - 1) // batch_size`. -/
def totalBatches (tks : List Ticker) (bs : Nat) : Nat :=
  (tks.length + bs - 1) / bs

/-- The batch indices the loop `for batch_idx in range(start_batch,
total_batches)` actually executes. -/
def executedIdxs (pf : Option ProgressRecord) (bs : Nat)
    (tickers : List Ticker) (resume : Bool) : List Nat :=
  List.range' (startBatch pf resume)
    (totalBatches (workingTickers pf tickers resume) bs - startBatch pf resume)

/-- The batches (ticker slices) the run actually processes, in order. -/
def executedBatches (pf : Option ProgressRecord) (bs : Nat)
    (tickers : List Ticker) (resume : Bool) : List (List Ticker) :=
  (executedIdxs pf bs tickers resume).map
    (batchTickers (workingTickers pf tickers resume) bs)

/-- Insertion step of `sortTickers`. -/
def insertSorted (x : Ticker) : List Ticker → List Ticker
  | [] => [x]
  | y :: ys => if x ≤ y then x :: y :: ys else y :: insertSorted x ys

/-- Python's `sorted` on ticker lists (insertion sort). -/
def sortTickers : List Ticker → List Ticker
  | [] => []
  | x :: xs => insertSorted x (sortTickers xs)

/-- The final summary record built at the end of `collect_all_data`. -/
def mkSummary (s : CollectorState) : CollectionSummary :=
  { total_tickers := s.successful_tickers.length + s.failed_tickers.length
    successful := s.successful_tickers.length
    failed := s.failed_tickers.length
    successful_tickers := sortTickers s.successful_tickers
    failed_tickers := sortTickers s.failed_tickers }

/-- Writing the summary file appends one summary record. -/
def writeSummary (s : CollectorState) : CollectorState :=
  { s with savedSummaries := s.savedSummaries ++ [mkSummary s] }

/-- `collect_all_data(tickers, resume)` on a fresh collector whose
progress file holds `pf` (`none` = no file): load progress when
resuming, filter the ticker list, run the batch loop from `start_batch`
to `total_batches`, then write the final summary. -/
def collect_all_data (O : MarketOracle) (pf : Option ProgressRecord)
    (bs : Nat) (tickers : List Ticker) (resume : Bool) : CollectorState :=
  writeSummary
    (runBatches O (workingTickers pf tickers resume) bs
      (executedIdxs pf bs tickers resume) (loadedState pf resume))

/-- A run of `collect_all_data` interrupted (KeyboardInterrupt) at a
batch boundary after `k` completed batches: the loop stops, no summary
is written; `run_full_collection.main` catches the interrupt and exits
after logging.  The progress file then holds the record persisted after
the last completed batch. -/
def collectInterrupted (O : MarketOracle) (pf : Option ProgressRecord)
    (bs : Nat) (tickers : List Ticker) (resume : Bool) (k : Nat) : CollectorState :=
  runBatches O (workingTickers pf tickers resume) bs
    ((executedIdxs pf bs tickers resume).take k) (loadedState pf resume)

/-- The ten tickers of the end-to-end scenarios (identified as 10..19 so
that list position `k` holds ticker `10 + k`, and even positions hold
even identifiers). -/
def tickers10 : List Ticker := [10, 11, 12, 13, 14, 15, 16, 17, 18, 19]

/-- Oracle that never raises and has data (and fundamentals) for every
ticker. -/
def allOracle : MarketOracle :=
  ⟨fun _ => false, fun _ _ => true, fun _ => true⟩

/-- Oracle that never raises and returns data exactly for the tickers
with even identifier, i.e. for the tickers at even zero-based positions
of `tickers10`. -/
def evenOracle : MarketOracle :=
  ⟨fun _ => false, fun _ t => t % 2 == 0, fun _ => true⟩


/-! ## Characterization of one batch and of the batch loop -/

/-- The bulk-fetch result of batch `i` over the working list. -/
def batchHistorical (O : MarketOracle) (tks : List Ticker) (bs i : Nat) : List Ticker :=
  download_batch_historical O i (batchTickers tks bs i)

/-- The tickers of batch `i` appended to the successful list (and whose
historical artifact is written). -/
def batchSucc (O : MarketOracle) (tks : List Ticker) (bs i : Nat) : List Ticker :=
  (batchTickers tks bs i).filter (fun t => decide (t ∈ batchHistorical O tks bs i))

/-- The tickers of batch `i` appended to the failed list. -/
def batchFail (O : MarketOracle) (tks : List Ticker) (bs i : Nat) : List Ticker :=
  (batchTickers tks bs i).filter (fun t => decide (¬ t ∈ batchHistorical O tks bs i))

/-- The tickers of batch `i` whose fundamentals artifact is written. -/
def batchFund (O : MarketOracle) (tks : List Ticker) (bs i : Nat) : List Ticker :=
  (batchTickers tks bs i).filter
    (fun t => decide (t ∈ batchHistorical O tks bs i) && download_fundamentals O t)

/-- The progress records persisted by the batch loop, given the
in-memory lists at loop entry and the batch indices to run. -/
def progressTrace (O : MarketOracle) (tks : List Ticker) (bs : Nat) :
    List Ticker → List Ticker → List Nat → List ProgressRecord
  | _, _, [] => []
  | succ, fail, i :: rest =>
      ⟨succ ++ batchSucc O tks bs i, fail ++ batchFail O tks bs i, i + 1⟩ ::
        progressTrace O tks bs (succ ++ batchSucc O tks bs i)
          (fail ++ batchFail O tks bs i) rest

lemma foldl_processTicker (historical : List Ticker) (fundOk : Ticker → Bool)
    (bt : List Ticker) : ∀ s : CollectorState,
    bt.foldl (processTicker historical fundOk) s =
      { s with
        successful_tickers :=
          s.successful_tickers ++ bt.filter (fun t => decide (t ∈ historical))
        failed_tickers :=
          s.failed_tickers ++ bt.filter (fun t => decide (¬ t ∈ historical))
        savedHistorical :=
          s.savedHistorical ++ bt.filter (fun t => decide (t ∈ historical))
        savedFundamentals :=
          s.savedFundamentals ++
            bt.filter (fun t => decide (t ∈ historical) && fundOk t) } := by
  induction bt with
  | nil => intro s; simp
  | cons t bt ih =>
    intro s
    rw [List.foldl_cons, ih]
    by_cases h : t ∈ historical
    · by_cases hf : fundOk t <;>
        simp [processTicker, h, hf, List.filter_cons]
    · simp [processTicker, h, List.filter_cons]

lemma runBatches_cons (O : MarketOracle) (tks : List Ticker) (bs : Nat)
    (i : Nat) (idxs : List Nat) (s : CollectorState) :
    runBatches O tks bs (i :: idxs) s =
      runBatches O tks bs idxs (processBatch O tks bs s i) := rfl

lemma processBatch_eq (O : MarketOracle) (tks : List Ticker) (bs : Nat)
    (s : CollectorState) (i : Nat) :
    processBatch O tks bs s i =
      { s with
        successful_tickers := s.successful_tickers ++ batchSucc O tks bs i
        failed_tickers := s.failed_tickers ++ batchFail O tks bs i
        savedHistorical := s.savedHistorical ++ batchSucc O tks bs i
        savedFundamentals := s.savedFundamentals ++ batchFund O tks bs i
        savedProgress := s.savedProgress ++
          [⟨s.successful_tickers ++ batchSucc O tks bs i,
            s.failed_tickers ++ batchFail O tks bs i, i + 1⟩] } := by
  show save_progress _ _ = _
  rw [foldl_processTicker]
  rfl

lemma runBatches_spec (O : MarketOracle) (tks : List Ticker) (bs : Nat)
    (idxs : List Nat) : ∀ s : CollectorState,
    runBatches O tks bs idxs s =
      { s with
        successful_tickers :=
          s.successful_tickers ++ (idxs.map (batchSucc O tks bs)).flatten
        failed_tickers :=
          s.failed_tickers ++ (idxs.map (batchFail O tks bs)).flatten
        savedHistorical :=
          s.savedHistorical ++ (idxs.map (batchSucc O tks bs)).flatten
        savedFundamentals :=
          s.savedFundamentals ++ (idxs.map (batchFund O tks bs)).flatten
        savedProgress :=
          s.savedProgress ++
            progressTrace O tks bs s.successful_tickers s.failed_tickers idxs } := by
  induction idxs with
  | nil => intro s; simp [runBatches, progressTrace]
  | cons i idxs ih =>
    intro s
    rw [runBatches_cons, processBatch_eq, ih]
    simp [progressTrace, List.append_assoc]

/-! ## Properties of the batch slices and the batch count -/

lemma batchTickers_eq (tks : List Ticker) (bs i : Nat) :
    batchTickers tks bs i = (tks.drop (i * bs)).take bs := by
  simp only [batchTickers]
  apply List.take_eq_take.mpr
  simp only [List.length_drop]
  omega

lemma batchTickers_length (tks : List Ticker) (bs i : Nat) :
    (batchTickers tks bs i).length = min bs (tks.length - i * bs) := by
  rw [batchTickers_eq]
  simp

lemma batchTickers_subset (tks : List Ticker) (bs i : Nat) :
    batchTickers tks bs i ⊆ tks := by
  rw [batchTickers_eq]
  intro t ht
  exact List.drop_subset _ _ (List.take_subset _ _ ht)

lemma flatten_batchTickers (tks : List Ticker) (bs : Nat) :
    ∀ n k : Nat,
    ((List.range' k n).map (batchTickers tks bs)).flatten =
      (tks.drop (k * bs)).take (n * bs) := by
  intro n
  induction n with
  | zero => intro k; simp
  | succ n ih =>
    intro k
    have h1 : (n + 1) * bs = bs + n * bs := by ring
    have h2 : (k + 1) * bs = k * bs + bs := by ring
    rw [List.range'_succ, List.map_cons, List.flatten_cons, ih (k + 1),
      batchTickers_eq, h2, h1, List.take_add, List.drop_drop]

lemma batchTickers_disjoint {w : List Ticker} {bs : Nat} (hnd : w.Nodup)
    {i j : Nat} (hij : i < j) {t : Ticker}
    (h1 : t ∈ batchTickers w bs i) (h2 : t ∈ batchTickers w bs j) : False := by
  rw [batchTickers_eq] at h1 h2
  have hle : i * bs + bs ≤ j * bs := by
    have h3 : (i + 1) * bs ≤ j * bs :=
      Nat.mul_le_mul_right bs (Nat.succ_le_of_lt hij)
    rw [Nat.succ_mul] at h3
    exact h3
  have h1' : t ∈ w.take (i * bs + bs) := by
    rw [List.take_add]
    exact List.mem_append_right _ h1
  have h2' : t ∈ w.drop (i * bs + bs) := by
    have hsub : t ∈ w.drop (j * bs) := List.take_subset _ _ h2
    have heq : (w.drop (i * bs + bs)).drop (j * bs - (i * bs + bs)) = w.drop (j * bs) := by
      rw [List.drop_drop]
      congr 1
      omega
    rw [← heq] at hsub
    exact List.drop_subset _ _ hsub
  rw [← List.take_append_drop (i * bs + bs) w] at hnd
  rcases List.nodup_append.mp hnd with ⟨-, -, hdisj⟩
  exact hdisj h1' h2'

lemma lt_totalBatches_mul {tks : List Ticker} {bs : Nat} (hbs : 0 < bs)
    {i : Nat} (hi : i < totalBatches tks bs) : i * bs < tks.length := by
  have h1 : i + 1 ≤ (tks.length + bs - 1) / bs := hi
  have h2 : (i + 1) * bs ≤ tks.length + bs - 1 :=
    (Nat.le_div_iff_mul_le hbs).mp h1
  rw [Nat.succ_mul] at h2
  omega

lemma totalBatches_mul_ge (tks : List Ticker) {bs : Nat} (hbs : 0 < bs) :
    tks.length ≤ totalBatches tks bs * bs := by
  have h2 : tks.length + bs - 1 < (totalBatches tks bs + 1) * bs :=
    (Nat.div_lt_iff_lt_mul hbs).mp (Nat.lt_succ_self _)
  rw [Nat.succ_mul] at h2
  omega

/-! ## Properties of the persisted progress trace -/

lemma progressTrace_length (O : MarketOracle) (tks : List Ticker) (bs : Nat)
    (idxs : List Nat) : ∀ succ fail : List Ticker,
    (progressTrace O tks bs succ fail idxs).length = idxs.length := by
  induction idxs with
  | nil => intro succ fail; rfl
  | cons i rest ih => intro succ fail; simp [progressTrace, ih]

lemma progressTrace_map_index (O : MarketOracle) (tks : List Ticker) (bs : Nat)
    (idxs : List Nat) : ∀ succ fail : List Ticker,
    (progressTrace O tks bs succ fail idxs).map ProgressRecord.last_batch_index =
      idxs.map (· + 1) := by
  induction idxs with
  | nil => intro succ fail; rfl
  | cons i rest ih => intro succ fail; simp [progressTrace, ih]

lemma progressTrace_get (O : MarketOracle) (tks : List Ticker) (bs : Nat)
    (idxs : List Nat) : ∀ (k : Nat) (succ fail : List Ticker)
      (hk : k < idxs.length)
      (hk2 : k < (progressTrace O tks bs succ fail idxs).length),
    (progressTrace O tks bs succ fail idxs).get ⟨k, hk2⟩ =
      ⟨succ ++ ((idxs.take (k + 1)).map (batchSucc O tks bs)).flatten,
       fail ++ ((idxs.take (k + 1)).map (batchFail O tks bs)).flatten,
       idxs.get ⟨k, hk⟩ + 1⟩ := by
  induction idxs with
  | nil => intro k succ fail hk; exact absurd hk (by simp)
  | cons i rest ih =>
    intro k succ fail hk hk2
    cases k with
    | zero => simp [progressTrace]
    | succ k =>
      have h1 : k < rest.length := by simpa using hk
      have h2 : k < (progressTrace O tks bs (succ ++ batchSucc O tks bs i)
          (fail ++ batchFail O tks bs i) rest).length := by
        rw [progressTrace_length]; exact h1
      show (progressTrace O tks bs succ fail (i :: rest)).get ⟨k + 1, hk2⟩ = _
      have h3 : (progressTrace O tks bs succ fail (i :: rest)).get ⟨k + 1, hk2⟩ =
          (progressTrace O tks bs (succ ++ batchSucc O tks bs i)
            (fail ++ batchFail O tks bs i) rest).get ⟨k, h2⟩ := by
        simp [progressTrace]
      rw [h3, ih k _ _ h1 h2]
      simp [List.append_assoc]

/-! ## Closed form of a complete run -/

lemma collect_all_data_eq (O : MarketOracle) (pf : Option ProgressRecord)
    (bs : Nat) (tickers : List Ticker) (resume : Bool) :
    collect_all_data O pf bs tickers resume =
      writeSummary
        { successful_tickers := (loadedState pf resume).successful_tickers ++
            ((executedIdxs pf bs tickers resume).map
              (batchSucc O (workingTickers pf tickers resume) bs)).flatten
          failed_tickers := (loadedState pf resume).failed_tickers ++
            ((executedIdxs pf bs tickers resume).map
              (batchFail O (workingTickers pf tickers resume) bs)).flatten
          savedHistorical :=
            ((executedIdxs pf bs tickers resume).map
              (batchSucc O (workingTickers pf tickers resume) bs)).flatten
          savedFundamentals :=
            ((executedIdxs pf bs tickers resume).map
              (batchFund O (workingTickers pf tickers resume) bs)).flatten
          savedProgress := progressTrace O (workingTickers pf tickers resume) bs
            (loadedState pf resume).successful_tickers
            (loadedState pf resume).failed_tickers
            (executedIdxs pf bs tickers resume)
          savedSummaries := [] } := by
  show writeSummary _ = _
  rw [runBatches_spec]
  cases resume <;> rfl

lemma collectInterrupted_eq (O : MarketOracle) (pf : Option ProgressRecord)
    (bs : Nat) (tickers : List Ticker) (resume : Bool) (k : Nat) :
    collectInterrupted O pf bs tickers resume k =
      { successful_tickers := (loadedState pf resume).successful_tickers ++
          (((executedIdxs pf bs tickers resume).take k).map
            (batchSucc O (workingTickers pf tickers resume) bs)).flatten
        failed_tickers := (loadedState pf resume).failed_tickers ++
          (((executedIdxs pf bs tickers resume).take k).map
            (batchFail O (workingTickers pf tickers resume) bs)).flatten
        savedHistorical :=
          (((executedIdxs pf bs tickers resume).take k).map
            (batchSucc O (workingTickers pf tickers resume) bs)).flatten
        savedFundamentals :=
          (((executedIdxs pf bs tickers resume).take k).map
            (batchFund O (workingTickers pf tickers resume) bs)).flatten
        savedProgress := progressTrace O (workingTickers pf tickers resume) bs
          (loadedState pf resume).successful_tickers
          (loadedState pf resume).failed_tickers
          ((executedIdxs pf bs tickers resume).take k)
        savedSummaries := [] } := by
  show runBatches _ _ _ _ _ = _
  rw [runBatches_spec]
  cases resume <;> rfl

/-! ## Ceiling-division arithmetic -/

lemma ceilDiv_of_mod_eq_zero {L bs : Nat} (hbs : 0 < bs)
    (h : L % bs = 0) : (L + bs - 1) / bs = L / bs := by
  obtain hdm := Nat.div_add_mod L bs
  rw [h, Nat.add_zero] at hdm
  obtain ⟨q, hq⟩ : ∃ q, L / bs = q := ⟨_, rfl⟩
  rw [hq] at hdm
  subst hdm
  rw [hq]
  have h1 : bs * q + bs - 1 = bs * q + (bs - 1) := by omega
  rw [h1, Nat.mul_add_div hbs, Nat.div_eq_of_lt (show bs - 1 < bs by omega),
    Nat.add_zero]

lemma ceilDiv_of_mod_ne_zero {L bs : Nat} (hbs : 0 < bs)
    (h : L % bs ≠ 0) : (L + bs - 1) / bs = L / bs + 1 := by
  obtain hdm := Nat.div_add_mod L bs
  have hrlt : L % bs < bs := Nat.mod_lt L hbs
  have h1 : L + bs - 1 = bs * (L / bs + 1) + (L % bs - 1) := by
    rw [Nat.mul_add, Nat.mul_one]
    omega
  rw [h1, Nat.mul_add_div hbs,
    Nat.div_eq_of_lt (show L % bs - 1 < bs by omega), Nat.add_zero]

lemma last_batch_length {tks : List Ticker} {bs : Nat} (hbs : 0 < bs)
    (hT : 0 < totalBatches tks bs) :
    (batchTickers tks bs (totalBatches tks bs - 1)).length =
      if tks.length % bs = 0 then bs else tks.length % bs := by
  have hL : 0 < tks.length := by
    by_contra hc
    have h0 : tks.length = 0 := by omega
    have hz : totalBatches tks bs = 0 := by
      unfold totalBatches
      rw [h0]
      exact Nat.div_eq_of_lt (by omega)
    omega
  rw [batchTickers_length]
  by_cases hmod : tks.length % bs = 0
  · rw [if_pos hmod]
    have hT_eq : totalBatches tks bs = tks.length / bs :=
      ceilDiv_of_mod_eq_zero hbs hmod
    obtain hdm := Nat.div_add_mod tks.length bs
    rw [hmod, Nat.add_zero] at hdm
    rw [hT_eq]
    have hq : 0 < tks.length / bs := by
      rcases Nat.eq_zero_or_pos (tks.length / bs) with h | h
      · rw [h, Nat.mul_zero] at hdm
        omega
      · exact h
    have h2 : (tks.length / bs - 1) * bs + bs = tks.length / bs * bs := by
      calc (tks.length / bs - 1) * bs + bs
          = (tks.length / bs - 1 + 1) * bs := (Nat.succ_mul _ _).symm
        _ = tks.length / bs * bs := by rw [Nat.sub_add_cancel hq]
    have h3 : tks.length / bs * bs = bs * (tks.length / bs) := Nat.mul_comm _ _
    omega
  · rw [if_neg hmod]
    have hT_eq : totalBatches tks bs = tks.length / bs + 1 :=
      ceilDiv_of_mod_ne_zero hbs hmod
    obtain hdm := Nat.div_add_mod tks.length bs
    have hrlt : tks.length % bs < bs := Nat.mod_lt _ hbs
    rw [hT_eq, Nat.add_sub_cancel]
    have h3 : tks.length / bs * bs = bs * (tks.length / bs) := Nat.mul_comm _ _
    omega

/-! ## Claims -/

/-- Oracle whose bulk call raises on every batch. -/
def raiseOracle : MarketOracle :=
  ⟨fun _ => true, fun _ _ => true, fun _ => true⟩

/-- Claim C4: a fresh run over the 10 tickers with batch size 4, where
the bulk fetch returns data exactly for the tickers at even zero-based
list positions, executes 3 batches and terminates with the 5
even-position tickers successful, the 5 odd-position tickers failed, and
one summary recording successful=5, failed=5, total_tickers=10. -/
theorem even_positions_scenario :
    (executedBatches none 4 tickers10 false).length = 3 ∧
    (collect_all_data evenOracle none 4 tickers10 false).savedProgress.length = 3 ∧
    (collect_all_data evenOracle none 4 tickers10 false).successful_tickers =
      [10, 12, 14, 16, 18] ∧
    (collect_all_data evenOracle none 4 tickers10 false).failed_tickers =
      [11, 13, 15, 17, 19] ∧
    (collect_all_data evenOracle none 4 tickers10 false).savedSummaries =
      [⟨10, 5, 5, [10, 12, 14, 16, 18], [11, 13, 15, 17, 19]⟩] := by
  decide

/-- Claim C9: whenever the bulk result of a batch contains a ticker, the
per-ticker step of `collect_all_data` appends it to the successful list
and leaves the failed list unchanged, for every behaviour of the
fundamentals download (`fundOk t = false` covers both an exception
inside `download_fundamentals` and an empty mapping); only the
fundamentals artifact write is conditional on `fundOk`. -/
theorem fundamentals_failure_still_successful (historical : List Ticker)
    (fundOk : Ticker → Bool) (s : CollectorState) (t : Ticker)
    (h : t ∈ historical) :
    (processTicker historical fundOk s t).successful_tickers =
        s.successful_tickers ++ [t] ∧
    (processTicker historical fundOk s t).failed_tickers = s.failed_tickers ∧
    (processTicker historical fundOk s t).savedHistorical =
        s.savedHistorical ++ [t] ∧
    (processTicker historical fundOk s t).savedFundamentals =
        s.savedFundamentals ++ (if fundOk t then [t] else []) := by
  by_cases hf : fundOk t <;> simp [processTicker, h, hf]

theorem fundamentals_failure_still_successful_witness :
    (processTicker [3] (fun _ => false) initState 3).successful_tickers =
        initState.successful_tickers ++ [3] ∧
    (processTicker [3] (fun _ => false) initState 3).failed_tickers =
        initState.failed_tickers :=
  ⟨(fundamentals_failure_still_successful [3] (fun _ => false) initState 3
      (by decide)).1,
   (fundamentals_failure_still_successful [3] (fun _ => false) initState 3
      (by decide)).2.1⟩

/-- Claim C5: if the bulk download of a batch raises, the fetch returns
the empty mapping, every ticker of that batch is appended to the failed
list and none to the successful list, no per-ticker artifact is written
for the batch, and the loop goes on to the remaining batches. -/
theorem bulk_failure_fails_whole_batch (O : MarketOracle) (tks : List Ticker)
    (bs i : Nat) (hr : O.bulkRaises i = true) (s : CollectorState) :
    download_batch_historical O i (batchTickers tks bs i) = [] ∧
    (processBatch O tks bs s i).successful_tickers = s.successful_tickers ∧
    (processBatch O tks bs s i).failed_tickers =
        s.failed_tickers ++ batchTickers tks bs i ∧
    (processBatch O tks bs s i).savedHistorical = s.savedHistorical ∧
    (processBatch O tks bs s i).savedFundamentals = s.savedFundamentals ∧
    (∀ rest : List Nat,
      runBatches O tks bs (i :: rest) s =
        runBatches O tks bs rest (processBatch O tks bs s i)) := by
  have hdl : download_batch_historical O i (batchTickers tks bs i) = [] := by
    simp [download_batch_historical, hr]
  have hbS : batchSucc O tks bs i = [] := by
    simp [batchSucc, batchHistorical, hdl]
  have hbF : batchFail O tks bs i = batchTickers tks bs i := by
    simp [batchFail, batchHistorical, hdl]
  have hbFd : batchFund O tks bs i = [] := by
    simp [batchFund, batchHistorical, hdl]
  refine ⟨hdl, ?_, ?_, ?_, ?_, fun rest => runBatches_cons O tks bs i rest s⟩ <;>
    rw [processBatch_eq] <;> simp [hbS, hbF, hbFd]

theorem bulk_failure_fails_whole_batch_witness :
    download_batch_historical raiseOracle 0 (batchTickers tickers10 4 0) = [] ∧
    (processBatch raiseOracle tickers10 4 initState 0).failed_tickers =
      initState.failed_tickers ++ batchTickers tickers10 4 0 :=
  ⟨(bulk_failure_fails_whole_batch raiseOracle tickers10 4 0 (by decide)
      initState).1,
   (bulk_failure_fails_whole_batch raiseOracle tickers10 4 0 (by decide)
      initState).2.2.1⟩

/-- Claim C7 (amended): every completed run of `collect_all_data` writes
the summary record exactly once; a run aborted (interrupted) before
completion writes no summary record. -/
theorem summary_written_once_on_completion (O : MarketOracle)
    (pf : Option ProgressRecord) (bs : Nat) (tickers : List Ticker)
    (resume : Bool) :
    (collect_all_data O pf bs tickers resume).savedSummaries.length = 1 ∧
    ∀ k, (collectInterrupted O pf bs tickers resume k).savedSummaries.length = 0 := by
  constructor
  · rw [collect_all_data_eq]
    rfl
  · intro k
    rw [collectInterrupted_eq]
    rfl

/-- Claim C7 as stated is false on the code: a run aborted after one
completed batch (of three) has persisted progress, so work was done, yet
its summary file was never written. -/
theorem summary_not_written_on_abort :
    (collectInterrupted allOracle none 4 tickers10 true 1).savedProgress ≠ [] ∧
    (collectInterrupted allOracle none 4 tickers10 true 1).savedSummaries = [] := by
  decide

/-- Claim C1 fails on the code: with tickers 10..19 and batch size 4, a
run interrupted after batch 1 of 3 persists the record
⟨[10,11,12,13],[],1⟩; the resumed run filters those four tickers out and
still starts its loop at batch index 1 over the filtered six-element
list, so it executes only the single batch [18,19]; tickers 14..17 are
in no batch of the resumed run and end in neither final list. -/
theorem resume_after_interrupt_loses_tickers :
    (collectInterrupted allOracle none 4 tickers10 true 1).savedProgress =
      [⟨[10, 11, 12, 13], [], 1⟩] ∧
    executedBatches (some ⟨[10, 11, 12, 13], [], 1⟩) 4 tickers10 true =
      [[18, 19]] ∧
    14 ∉ (collect_all_data allOracle (some ⟨[10, 11, 12, 13], [], 1⟩) 4
        tickers10 true).successful_tickers ∧
    14 ∉ (collect_all_data allOracle (some ⟨[10, 11, 12, 13], [], 1⟩) 4
        tickers10 true).failed_tickers := by
  decide

/-- Claim C10: with no progress file, `load_progress` returns empty
successful and failed lists and last-batch-index 0, so a first run with
resume enabled has the same working list, executes the same batches, and
ends in exactly the same final state as a run with resume disabled. -/
theorem first_resume_run_eq_fresh_run (O : MarketOracle) (bs : Nat)
    (tickers : List Ticker) :
    load_progress none = ⟨[], [], 0⟩ ∧
    workingTickers none tickers true = tickers ∧
    executedBatches none bs tickers true = executedBatches none bs tickers false ∧
    collect_all_data O none bs tickers true =
      collect_all_data O none bs tickers false := by
  have hw : workingTickers none tickers true = tickers := by
    simp [workingTickers, load_progress]
  refine ⟨rfl, hw, ?_, ?_⟩
  · unfold executedBatches executedIdxs
    rw [hw]
    rfl
  · unfold collect_all_data executedIdxs
    rw [hw]
    rfl

/-- Claim C3: with a positive batch size, a fresh (non-resumed) run
partitions the ticker list into exactly ceil(L/bs) batches whose
concatenation is the original list; every non-final batch has size bs,
and the final batch has size L mod bs when that is nonzero (and bs when
bs divides L). -/
theorem fresh_run_batch_partition (pf : Option ProgressRecord) (bs : Nat)
    (tickers : List Ticker) (hbs : 0 < bs) :
    (executedBatches pf bs tickers false).length =
        (tickers.length + bs - 1) / bs ∧
    (executedBatches pf bs tickers false).flatten = tickers ∧
    (∀ k (hk : k < (executedBatches pf bs tickers false).length),
        k + 1 < (executedBatches pf bs tickers false).length →
        ((executedBatches pf bs tickers false).get ⟨k, hk⟩).length = bs) ∧
    (∀ hne : executedBatches pf bs tickers false ≠ [],
        ((executedBatches pf bs tickers false).getLast hne).length =
          if tickers.length % bs = 0 then bs else tickers.length % bs) := by
  have hEB : executedBatches pf bs tickers false =
      (List.range' 0 (totalBatches tickers bs)).map (batchTickers tickers bs) := rfl
  rw [hEB]
  refine ⟨?_, ?_, ?_, ?_⟩
  · simp [totalBatches]
  · rw [flatten_batchTickers tickers bs (totalBatches tickers bs) 0]
    simp only [Nat.zero_mul, List.drop_zero]
    exact List.take_of_length_le (totalBatches_mul_ge tickers hbs)
  · intro k hk h1
    have hkT : k + 1 < totalBatches tickers bs := by simpa using h1
    rw [List.get_map, List.get_range']
    simp only [Nat.zero_add, Nat.one_mul]
    rw [batchTickers_length]
    have h2 : (k + 1) * bs < tickers.length := lt_totalBatches_mul hbs hkT
    rw [Nat.succ_mul] at h2
    omega
  · intro hne
    have hT : 0 < totalBatches tickers bs := by
      by_contra hc
      have h0 : totalBatches tickers bs = 0 := by omega
      rw [h0] at hne
      simp at hne
    rw [List.getLast_eq_get, List.get_map, List.get_range']
    simp only [List.length_map, List.length_range', Nat.zero_add, Nat.one_mul]
    exact last_batch_length hbs hT

theorem fresh_run_batch_partition_witness :
    (executedBatches none 4 tickers10 false).length =
        (tickers10.length + 4 - 1) / 4 ∧
    (executedBatches none 4 tickers10 false).flatten = tickers10 :=
  ⟨(fresh_run_batch_partition none 4 tickers10 (by decide)).1,
   (fresh_run_batch_partition none 4 tickers10 (by decide)).2.1⟩

lemma mem_workingTickers_true {pf : Option ProgressRecord}
    {tickers : List Ticker} {t : Ticker}
    (h : t ∈ workingTickers pf tickers true) :
    t ∈ tickers ∧
      t ∉ (load_progress pf).successful_tickers ++
        (load_progress pf).failed_tickers := by
  have h' : t ∈ tickers.filter (fun t =>
      decide (¬ t ∈ (load_progress pf).successful_tickers ++
        (load_progress pf).failed_tickers)) := h
  rcases List.mem_filter.mp h' with ⟨h1, h2⟩
  exact ⟨h1, of_decide_eq_true h2⟩

/-- Claim C2: a resumed run never fetches, persists, or re-marks any
ticker recorded in the loaded progress record: such a ticker is removed
from the working list before batching, belongs to no executed batch, has
no artifact written, and its occurrence counts in the final successful
and failed lists equal those of the loaded record. -/
theorem resume_never_reprocesses (O : MarketOracle) (pf : Option ProgressRecord)
    (bs : Nat) (tickers : List Ticker) (t : Ticker)
    (ht : t ∈ (load_progress pf).successful_tickers ++
      (load_progress pf).failed_tickers) :
    t ∉ workingTickers pf tickers true ∧
    (∀ b ∈ executedBatches pf bs tickers true, t ∉ b) ∧
    t ∉ (collect_all_data O pf bs tickers true).savedHistorical ∧
    t ∉ (collect_all_data O pf bs tickers true).savedFundamentals ∧
    (collect_all_data O pf bs tickers true).successful_tickers.count t =
      (load_progress pf).successful_tickers.count t ∧
    (collect_all_data O pf bs tickers true).failed_tickers.count t =
      (load_progress pf).failed_tickers.count t := by
  have hW : t ∉ workingTickers pf tickers true :=
    fun hmem => (mem_workingTickers_true hmem).2 ht
  have hBatch : ∀ j : Nat, t ∉ batchTickers (workingTickers pf tickers true) bs j :=
    fun j hm => hW (batchTickers_subset _ _ _ hm)
  have hB : ∀ b ∈ executedBatches pf bs tickers true, t ∉ b := by
    intro b hb
    rcases List.mem_map.mp (show b ∈ (executedIdxs pf bs tickers true).map
        (batchTickers (workingTickers pf tickers true) bs) from hb) with ⟨j, -, rfl⟩
    exact hBatch j
  have hnotin : ∀ g : Nat → List Ticker,
      (∀ j x, x ∈ g j → x ∈ batchTickers (workingTickers pf tickers true) bs j) →
      t ∉ ((executedIdxs pf bs tickers true).map g).flatten := by
    intro g hg hmem
    rcases List.mem_flatten.mp hmem with ⟨l, hl, hml⟩
    rcases List.mem_map.mp hl with ⟨j, -, rfl⟩
    exact hBatch j (hg j t hml)
  have hgS : ∀ j x, x ∈ batchSucc O (workingTickers pf tickers true) bs j →
      x ∈ batchTickers (workingTickers pf tickers true) bs j :=
    fun j x hx => (List.mem_filter.mp hx).1
  have hgF : ∀ j x, x ∈ batchFail O (workingTickers pf tickers true) bs j →
      x ∈ batchTickers (workingTickers pf tickers true) bs j :=
    fun j x hx => (List.mem_filter.mp hx).1
  have hgFd : ∀ j x, x ∈ batchFund O (workingTickers pf tickers true) bs j →
      x ∈ batchTickers (workingTickers pf tickers true) bs j :=
    fun j x hx => (List.mem_filter.mp hx).1
  refine ⟨hW, hB, ?_, ?_, ?_, ?_⟩
  · rw [collect_all_data_eq]
    exact hnotin _ hgS
  · rw [collect_all_data_eq]
    exact hnotin _ hgFd
  · rw [collect_all_data_eq]
    simp only [writeSummary]
    rw [List.count_append, List.count_eq_zero.mpr (hnotin _ hgS), Nat.add_zero]
    rfl
  · rw [collect_all_data_eq]
    simp only [writeSummary]
    rw [List.count_append, List.count_eq_zero.mpr (hnotin _ hgF), Nat.add_zero]
    rfl

theorem resume_never_reprocesses_witness :
    (1 : Ticker) ∉ workingTickers (some ⟨[1], [2], 1⟩) [1, 2, 3] true ∧
    (collect_all_data allOracle (some ⟨[1], [2], 1⟩) 1 [1, 2, 3]
        true).successful_tickers.count 1 =
      (load_progress (some ⟨[1], [2], 1⟩)).successful_tickers.count 1 :=
  ⟨(resume_never_reprocesses allOracle (some ⟨[1], [2], 1⟩) 1 [1, 2, 3] 1
      (by decide)).1,
   (resume_never_reprocesses allOracle (some ⟨[1], [2], 1⟩) 1 [1, 2, 3] 1
      (by decide)).2.2.2.2.1⟩

/-- Claim C8: each executed batch persists exactly one progress record,
in order; the k-th persisted record's batch index is the k-th executed
batch index plus one, so the persisted indices strictly increase within
the run; and each record is persisted only after its whole batch is
processed: the k-th record's successful and failed lists already cover
every ticker of the k-th batch. -/
theorem progress_persisted_once_per_batch (O : MarketOracle)
    (pf : Option ProgressRecord) (bs : Nat) (tickers : List Ticker)
    (resume : Bool) :
    (collect_all_data O pf bs tickers resume).savedProgress.length =
        (executedIdxs pf bs tickers resume).length ∧
    (collect_all_data O pf bs tickers resume).savedProgress.map
        ProgressRecord.last_batch_index =
      (executedIdxs pf bs tickers resume).map (· + 1) ∧
    List.Chain' (· < ·)
      ((collect_all_data O pf bs tickers resume).savedProgress.map
        ProgressRecord.last_batch_index) ∧
    ∀ (k : Nat) (hk : k < (executedIdxs pf bs tickers resume).length)
      (hk2 : k < (collect_all_data O pf bs tickers resume).savedProgress.length),
      ∀ t ∈ batchTickers (workingTickers pf tickers resume) bs
          ((executedIdxs pf bs tickers resume).get ⟨k, hk⟩),
        t ∈ ((collect_all_data O pf bs tickers resume).savedProgress.get
              ⟨k, hk2⟩).successful_tickers ∨
        t ∈ ((collect_all_data O pf bs tickers resume).savedProgress.get
              ⟨k, hk2⟩).failed_tickers := by
  have hSP : (collect_all_data O pf bs tickers resume).savedProgress =
      progressTrace O (workingTickers pf tickers resume) bs
        (loadedState pf resume).successful_tickers
        (loadedState pf resume).failed_tickers
        (executedIdxs pf bs tickers resume) := by
    rw [collect_all_data_eq]
    rfl
  refine ⟨?_, ?_, ?_, ?_⟩
  · rw [hSP, progressTrace_length]
  · rw [hSP, progressTrace_map_index]
  · rw [hSP, progressTrace_map_index]
    have hP : List.Pairwise (· < ·) (executedIdxs pf bs tickers resume) :=
      List.pairwise_lt_range' _ _
    exact (List.Pairwise.map _ (fun a b hab => by omega) hP).chain'
  · intro k hk hk2 t ht
    have hk2' : k < (progressTrace O (workingTickers pf tickers resume) bs
        (loadedState pf resume).successful_tickers
        (loadedState pf resume).failed_tickers
        (executedIdxs pf bs tickers resume)).length := by
      rw [progressTrace_length]
      exact hk
    rw [List.get_of_eq hSP ⟨k, hk2⟩,
      progressTrace_get O (workingTickers pf tickers resume) bs
        (executedIdxs pf bs tickers resume) k
        (loadedState pf resume).successful_tickers
        (loadedState pf resume).failed_tickers hk hk2']
    have hmem_take : (executedIdxs pf bs tickers resume).get ⟨k, hk⟩ ∈
        (executedIdxs pf bs tickers resume).take (k + 1) := by
      rw [List.get_take (executedIdxs pf bs tickers resume) hk (Nat.lt_succ_self k)]
      exact List.get_mem _ _ _
    by_cases hmem : t ∈ batchHistorical O (workingTickers pf tickers resume) bs
        ((executedIdxs pf bs tickers resume).get ⟨k, hk⟩)
    · left
      apply List.mem_append_right
      apply List.mem_flatten.mpr
      exact ⟨batchSucc O (workingTickers pf tickers resume) bs
          ((executedIdxs pf bs tickers resume).get ⟨k, hk⟩),
        List.mem_map.mpr ⟨_, hmem_take, rfl⟩,
        List.mem_filter.mpr ⟨ht, decide_eq_true hmem⟩⟩
    · right
      apply List.mem_append_right
      apply List.mem_flatten.mpr
      exact ⟨batchFail O (workingTickers pf tickers resume) bs
          ((executedIdxs pf bs tickers resume).get ⟨k, hk⟩),
        List.mem_map.mpr ⟨_, hmem_take, rfl⟩,
        List.mem_filter.mpr ⟨ht, decide_eq_true hmem⟩⟩

theorem progress_persisted_once_per_batch_witness :
    5 ∈ ((collect_all_data allOracle none 1 [5] false).savedProgress.get
        ⟨0, by decide⟩).successful_tickers ∨
    5 ∈ ((collect_all_data allOracle none 1 [5] false).savedProgress.get
        ⟨0, by decide⟩).failed_tickers :=
  (progress_persisted_once_per_batch allOracle none 1 [5] false).2.2.2
    0 (by decide) (by decide) 5 (by decide)

/-- Claim C6: in a run over a duplicate-free ticker list, every ticker
of an executed batch that is absent from that batch's bulk-fetch result
is appended to the failed list and is never in the final successful
list. -/
theorem absent_ticker_recorded_failed (O : MarketOracle)
    (pf : Option ProgressRecord) (bs : Nat) (tickers : List Ticker)
    (resume : Bool) (hnd : tickers.Nodup) (i : Nat)
    (hi : i ∈ executedIdxs pf bs tickers resume) (t : Ticker)
    (ht : t ∈ batchTickers (workingTickers pf tickers resume) bs i)
    (hm : t ∉ batchHistorical O (workingTickers pf tickers resume) bs i) :
    t ∈ (collect_all_data O pf bs tickers resume).failed_tickers ∧
    t ∉ (collect_all_data O pf bs tickers resume).successful_tickers := by
  have hndw : (workingTickers pf tickers resume).Nodup := by
    cases resume
    · exact hnd
    · exact hnd.filter _
  have hload : t ∉ (loadedState pf resume).successful_tickers := by
    cases resume
    · intro hL
      exact absurd hL (List.not_mem_nil t)
    · intro hL
      exact (mem_workingTickers_true (batchTickers_subset _ _ _ ht)).2
        (List.mem_append_left _ hL)
  constructor
  · rw [collect_all_data_eq]
    apply List.mem_append_right
    apply List.mem_flatten.mpr
    exact ⟨batchFail O (workingTickers pf tickers resume) bs i,
      List.mem_map.mpr ⟨i, hi, rfl⟩,
      List.mem_filter.mpr ⟨ht, decide_eq_true hm⟩⟩
  · rw [collect_all_data_eq]
    intro hmem
    rcases List.mem_append.mp hmem with hL | hR
    · exact hload hL
    · rcases List.mem_flatten.mp hR with ⟨l, hl, hml⟩
      rcases List.mem_map.mp hl with ⟨j, hj, rfl⟩
      rcases List.mem_filter.mp hml with ⟨htj, hdec⟩
      by_cases hij : i = j
      · subst hij
        exact hm (of_decide_eq_true hdec)
      · rcases Nat.lt_or_ge i j with hlt | hge
        · exact batchTickers_disjoint hndw hlt ht htj
        · have hlt' : j < i := by omega
          exact batchTickers_disjoint hndw hlt' htj ht

theorem absent_ticker_recorded_failed_witness :
    1 ∈ (collect_all_data evenOracle none 1 [1] false).failed_tickers ∧
    1 ∉ (collect_all_data evenOracle none 1 [1] false).successful_tickers :=
  absent_ticker_recorded_failed evenOracle none 1 [1] false (by decide)
    0 (by decide) 1 (by decide) (by decide)
